import Mathlib

/-!
Shallow embedding of the document-retrieval engine in
src/agent/rag_engine.py (class RAGEngine).

Modelling conventions:
- Python strings are Lean String values; Python character-level slicing
  (s[:n]) is modelled by taking the first n characters of the
  underlying character list.
- Python float scores are modelled exactly as rationals (ℚ).
- The verbose-controlled console.print diagnostics are modelled as a list
  of emitted message strings returned next to the result, so that the
  claim that verbosity never changes the returned value is a real
  statement about the embedding.
- sklearn's TfidfVectorizer / cosine_similarity are external library
  code, not part of this repository; the TF-IDF path is therefore
  parametrised by an abstract similarity function (query -> one score
  per document), and everything the repository itself does with those
  scores (numpy argsort, reversal, slicing, thresholding) is embedded
  faithfully.  numpy argsort is modelled as a stable ascending argsort
  (numpy's kind=stable; the default quicksort leaves tie order
  implementation-defined, and coincides with the stable model on the
  small arrays exercised here).
- Python list.sort(key=..., reverse=True) is stable and is modelled by a
  stable insertion sort with a descending comparison.
-/

/-- A document of the corpus: rag_engine.py stores dictionaries with at
least a title and a content field; only those two fields are read by
the engine. -/
structure Doc where
  title : String
  content : String
deriving DecidableEq

/-- A search result, mirroring the dictionaries
appended in RAGEngine search paths: the document and its score. -/
structure SearchResult where
  doc : Doc
  score : ℚ
deriving DecidableEq

/-- Split a character list at whitespace, dropping empty fragments:
the model of Python str.split() with no argument.  The accumulator
holds the current in-progress word, reversed. -/
def splitWs : List Char → List Char → List (List Char)
  | [], acc => if acc.isEmpty then [] else [acc.reverse]
  | c :: cs, acc =>
    if c.isWhitespace then
      if acc.isEmpty then splitWs cs [] else acc.reverse :: splitWs cs []
    else splitWs cs (c :: acc)

/-- Model of query.lower().split(): lowercase the string and split it
on whitespace. -/
def words (s : String) : List (List Char) :=
  splitWs (s.data.map Char.toLower) []

/-- Model of set(s.lower().split()): the distinct lowercased words of
the string.  Python set iteration order is immaterial here because the
engine only takes cardinalities of such sets. -/
def wordSet (s : String) : List (List Char) :=
  (words s).dedup

/-- Model of len(a & b) for the word sets computed by wordSet: the
number of distinct words of a that also occur in b. -/
def interCount (a b : List (List Char)) : ℕ :=
  (a.filter (fun w => b.contains w)).length

/-- Insert one element into a list sorted by the boolean comparison le,
placing x before the first y with le x y (the insertion step of a
stable insertion sort). -/
def insertBy {α : Type} (le : α → α → Bool) (x : α) : List α → List α
  | [] => [x]
  | y :: ys => if le x y then x :: y :: ys else y :: insertBy le x ys

/-- Stable insertion sort by the boolean comparison le: elements that
compare equal keep their original relative order (the model of both
Python's stable list.sort and numpy's stable argsort). -/
def sortBy {α : Type} (le : α → α → Bool) : List α → List α
  | [] => []
  | x :: xs => insertBy le x (sortBy le xs)

/-- Model of scores.sort(key=lambda x: x[1], reverse=True) on the
(index, score) pairs of the keyword path: a stable descending sort on
the score component. -/
def sortScoresDesc (scores : List (ℕ × ℚ)) : List (ℕ × ℚ) :=
  sortBy (fun a b => decide (b.2 ≤ a.2)) scores

/-- Model of np.argsort(similarities): the indices of the similarity
list, stably sorted by ascending similarity. -/
def argsort (sims : List ℚ) : List ℕ :=
  sortBy (fun i j => decide (sims.getD i 0 ≤ sims.getD j 0)) (List.range sims.length)

/-- The per-document score of RAGEngine._simple_search: content overlap
plus doubled title overlap, each divided by the clamped query word
count max(len(query_words), 1). -/
def simpleScore (query_words : List (List Char)) (doc : Doc) : ℚ :=
  let content_words := wordSet doc.content
  let title_words := wordSet doc.title
  let content_score : ℚ :=
    (interCount query_words content_words : ℚ) / ((max query_words.length 1 : ℕ) : ℚ)
  let title_score : ℚ :=
    (interCount query_words title_words : ℚ) / ((max query_words.length 1 : ℕ) : ℚ) * 2
  content_score + title_score

/-- The (index, score) pairs selected by RAGEngine._simple_search:
score every document, sort descending (stable), keep the first top_k,
and keep only scores strictly above the 0.1 threshold. -/
def simple_ranked (docs : List Doc) (query : String) (top_k : ℕ) : List (ℕ × ℚ) :=
  let query_words := wordSet query
  let scores := (List.range docs.length).map
    (fun idx => (idx, simpleScore query_words (docs.getD idx ⟨"", ""⟩)))
  ((sortScoresDesc scores).take top_k).filter (fun p => decide ((1 : ℚ)/10 < p.2))

/-- The (index, score) pairs selected by RAGEngine._sklearn_search from
a given similarity row: np.argsort(similarities)[::-1][:top_k],
then the strict 0.1 threshold filter applied in the result loop. -/
def sklearn_ranked (sims : List ℚ) (top_k : ℕ) : List (ℕ × ℚ) :=
  ((((argsort sims).reverse.take top_k).filter
      (fun idx => decide ((1 : ℚ)/10 < sims.getD idx 0))).map
    (fun idx => (idx, sims.getD idx 0)))

/-- The engine state of class RAGEngine: the loaded corpus, whether
sklearn is available (use_sklearn), and the abstract similarity
function standing for the fitted vectorizer and doc_vectors (it maps a
query to one cosine-similarity score per document). -/
structure RAGEngine where
  docs : List Doc
  use_sklearn : Bool
  sim : String → List ℚ

/-- RAGEngine._simple_search: build the thresholded ranking and return
document/score records. -/
def RAGEngine.simple_search (e : RAGEngine) (query : String) (top_k : ℕ) : List SearchResult :=
  (simple_ranked e.docs query top_k).map
    (fun p => ⟨e.docs.getD p.1 ⟨"", ""⟩, p.2⟩)

/-- RAGEngine._sklearn_search: compute similarities via the abstract
TF-IDF model, rank and threshold them, and return document/score
records next to the verbose-only diagnostic line. -/
def RAGEngine.sklearn_search (e : RAGEngine) (query : String) (top_k : ℕ) (verbose : Bool) :
    List SearchResult × List String :=
  let similarities := e.sim query
  let results := (sklearn_ranked similarities top_k).map
    (fun p => (⟨e.docs.getD p.1 ⟨"", ""⟩, p.2⟩ : SearchResult))
  (results,
    if verbose then ["Found " ++ toString results.length ++ " relevant documents"] else [])

/-- RAGEngine.search: empty corpus answers the empty list (with a
verbose-only warning); otherwise dispatch on use_sklearn to the TF-IDF
path or the keyword fallback. -/
def RAGEngine.search (e : RAGEngine) (query : String) (top_k : ℕ) (verbose : Bool) :
    List SearchResult × List String :=
  if e.docs.isEmpty then
    ([], if verbose then ["No documentation loaded"] else [])
  else if e.use_sklearn then
    e.sklearn_search query top_k verbose
  else
    (e.simple_search query top_k, [])

/-- Take the first n characters of a string: the model of Python
s[:n]. -/
def strTake (s : String) (n : ℕ) : String :=
  ⟨s.data.take n⟩

/-- The per-result block appended by RAGEngine.get_relevant_context: a
heading line from the title followed by the first 500 characters of
the content and an ellipsis marker. -/
def contextBlock (d : Doc) : String :=
  "\n\n## " ++ d.title ++ "\n" ++ strTake d.content 500 ++ "...\n"

/-- The accumulation loop of RAGEngine.get_relevant_context: append one
block per result in ranked order and break as soon as the accumulated
string has reached max_length characters. -/
def assembleLoop (max_length : ℕ) : List SearchResult → String → String
  | [], acc => acc
  | r :: rs, acc =>
    let acc' := acc ++ contextBlock r.doc
    if max_length ≤ acc'.length then acc' else assembleLoop max_length rs acc'

/-- The same block assembly with no length bound: every ranked result
contributes its full block.  Used as the reference value that the
bounded assembly must be a prefix of. -/
def assembleFull (results : List SearchResult) : String :=
  results.foldl (fun acc r => acc ++ contextBlock r.doc) ""

/-- RAGEngine.get_relevant_context: search with top_k = 5, accumulate
blocks until the bound is crossed, then hard-truncate to max_length
characters.  The second component carries the verbose-only diagnostics
of the inner search. -/
def RAGEngine.get_relevant_context (e : RAGEngine) (query : String) (max_length : ℕ)
    (verbose : Bool) : String × List String :=
  let sr := e.search query 5 verbose
  (strTake (assembleLoop max_length sr.1 "") max_length, sr.2)

/-- The three relevant states of the corpus source seen by
RAGEngine.__init__: the docs_path does not exist, it exists but
json.load raises on it, or it exists and parses to a document list. -/
inductive LoadSource where
  | missing : LoadSource
  | unparsable : LoadSource
  | parsed : List Doc → LoadSource

/-- RAGEngine.__init__: the engine starts with an empty corpus and only
calls load_docs when the path exists; a json.load failure inside
load_docs is not caught anywhere, so it propagates and construction
fails.  sklearn_available stands for the module-level SKLEARN_AVAILABLE
flag and sim for the index built by load_docs on the TF-IDF path. -/
def RAGEngine.init (sklearn_available : Bool) (sim : String → List ℚ)
    (source : LoadSource) : Except String RAGEngine :=
  match source with
  | LoadSource.missing => Except.ok ⟨[], sklearn_available, sim⟩
  | LoadSource.unparsable => Except.error "JSONDecodeError"
  | LoadSource.parsed docs => Except.ok ⟨docs, sklearn_available, sim⟩

/-- State-passing form of the search method: a Python method receives
self and may mutate it, so the embedding returns the updated self next
to the return value.  The body of RAGEngine.search assigns to no field
of self, so the state out is the state in. -/
def RAGEngine.searchM (e : RAGEngine) (query : String) (top_k : ℕ) (verbose : Bool) :
    (List SearchResult × List String) × RAGEngine :=
  (e.search query top_k verbose, e)

/-- State-passing form of the get_relevant_context method; like
searchM, the method body assigns to no field of self. -/
def RAGEngine.get_relevant_contextM (e : RAGEngine) (query : String) (max_length : ℕ)
    (verbose : Bool) : (String × List String) × RAGEngine :=
  (e.get_relevant_context query max_length verbose, e)

/-- State-passing form of RAGEngine.load_docs: it replaces the whole
corpus with the parsed document list and rebuilds the index (the new
abstract similarity function). -/
def RAGEngine.load_docsM (e : RAGEngine) (docs : List Doc) (sim : String → List ℚ) :
    RAGEngine :=
  { e with docs := docs, sim := sim }

/-- The ordinal-annotated ranking underlying RAGEngine.search: the
(corpus ordinal, score) pairs whose documents the search result list
reports, in output order. -/
def rankedOf (e : RAGEngine) (query : String) (top_k : ℕ) : List (ℕ × ℚ) :=
  if e.docs.isEmpty then []
  else if e.use_sklearn then sklearn_ranked (e.sim query) top_k
  else simple_ranked e.docs query top_k

/-- Ordering predicate of the spec: scores strictly descending, and
ties resolved by ascending corpus ordinal. -/
def descTieAsc (l : List (ℕ × ℚ)) : Prop :=
  l.Pairwise (fun a b => b.2 < a.2 ∨ (a.2 = b.2 ∧ a.1 < b.1))

/-- Ordering with scores strictly descending and ties resolved by
descending corpus ordinal (what reversing a stable ascending argsort
produces). -/
def descTieDesc (l : List (ℕ × ℚ)) : Prop :=
  l.Pairwise (fun a b => b.2 < a.2 ∨ (a.2 = b.2 ∧ b.1 < a.1))

/-- Membership in an insertion step: exactly the inserted element and
the old elements. -/
theorem mem_insertBy {α : Type} {le : α → α → Bool} {x a : α} :
    ∀ {l : List α}, a ∈ insertBy le x l → a = x ∨ a ∈ l := by
  intro l
  induction l with
  | nil => simp [insertBy]
  | cons y ys ih =>
    intro h
    rw [insertBy] at h
    split at h
    · rcases List.mem_cons.mp h with h1 | h1
      · exact Or.inl h1
      · exact Or.inr h1
    · rcases List.mem_cons.mp h with h1 | h1
      · exact Or.inr (by simp [h1])
      · rcases ih h1 with h2 | h2
        · exact Or.inl h2
        · exact Or.inr (by simp [h2])

/-- Membership after stable sorting: only elements of the input
appear. -/
theorem mem_sortBy {α : Type} {le : α → α → Bool} {a : α} :
    ∀ {l : List α}, a ∈ sortBy le l → a ∈ l := by
  intro l
  induction l with
  | nil => simp [sortBy]
  | cons x xs ih =>
    simp only [sortBy]
    intro h
    rcases mem_insertBy h with h1 | h1
    · simp [h1]
    · simp [ih h1]

/-- Sortedness of one insertion step of the stable sort: r is the
target order, s the original-position order of the inserted element
relative to the list (x stood before every element of l).  htrue and
hfalse translate the boolean comparison into r, and hstep closes the
order under skipping one comparison. -/
theorem pairwise_insertBy {α : Type} {le : α → α → Bool} {r s : α → α → Prop}
    (htrue : ∀ a b, le a b = true → s a b → r a b)
    (hfalse : ∀ a b, le a b = false → r b a)
    (hstep : ∀ a b c, le a b = true → r b c → s a c → r a c)
    {x : α} : ∀ {l : List α}, l.Pairwise r → (∀ y ∈ l, s x y) →
      (insertBy le x l).Pairwise r := by
  intro l
  induction l with
  | nil =>
    intro _ _
    simp [insertBy]
  | cons y ys ih =>
    intro hp hs
    rcases List.pairwise_cons.mp hp with ⟨hy, hys⟩
    rw [insertBy]
    cases hle : le x y with
    | false =>
      rw [if_neg (by simp)]
      refine List.pairwise_cons.mpr
        ⟨?_, ih hys (fun z hz => hs z (List.mem_cons_of_mem y hz))⟩
      intro z hz
      rcases mem_insertBy hz with h1 | h1
      · exact h1 ▸ hfalse x y hle
      · exact hy z h1
    | true =>
      rw [if_pos rfl]
      refine List.pairwise_cons.mpr ⟨?_, hp⟩
      intro z hz
      rcases List.mem_cons.mp hz with h1 | h1
      · exact h1 ▸ htrue x y hle (hs y (by simp))
      · exact hstep x y z hle (hy z h1) (hs z (by simp [h1]))

/-- Sortedness of the stable insertion sort: if the input is pairwise
in original order s, the output is pairwise in the target order r. -/
theorem pairwise_sortBy {α : Type} {le : α → α → Bool} {r s : α → α → Prop}
    (htrue : ∀ a b, le a b = true → s a b → r a b)
    (hfalse : ∀ a b, le a b = false → r b a)
    (hstep : ∀ a b c, le a b = true → r b c → s a c → r a c) :
    ∀ {l : List α}, l.Pairwise s → (sortBy le l).Pairwise r := by
  intro l
  induction l with
  | nil =>
    intro _
    simp [sortBy]
  | cons x xs ih =>
    intro hp
    rcases List.pairwise_cons.mp hp with ⟨hx, hxs⟩
    exact pairwise_insertBy htrue hfalse hstep (ih hxs)
      (fun y hy => hx y (mem_sortBy hy))

/-- The visible result list of search is the ordinal-annotated ranking
with each ordinal resolved to its document. -/
theorem search_fst_eq (e : RAGEngine) (query : String) (top_k : ℕ) (verbose : Bool) :
    (e.search query top_k verbose).1 =
      (rankedOf e query top_k).map
        (fun p => (⟨e.docs.getD p.1 ⟨"", ""⟩, p.2⟩ : SearchResult)) := by
  unfold RAGEngine.search rankedOf RAGEngine.sklearn_search RAGEngine.simple_search
  by_cases h : e.docs.isEmpty <;> by_cases h2 : e.use_sklearn <;> simp [h, h2]

/-- The ordinal-annotated ranking never exceeds top_k entries. -/
theorem rankedOf_length_le (e : RAGEngine) (query : String) (top_k : ℕ) :
    (rankedOf e query top_k).length ≤ top_k := by
  unfold rankedOf
  split_ifs with h1 h2
  · simp
  · simp only [sklearn_ranked]
    rw [List.length_map]
    exact le_trans (List.length_filter_le _ _) (List.length_take_le _ _)
  · simp only [simple_ranked]
    exact le_trans (List.length_filter_le _ _) (List.length_take_le _ _)

/-- Every entry of the ordinal-annotated ranking scores strictly above
the 0.1 threshold. -/
theorem rankedOf_score_gt (e : RAGEngine) (query : String) (top_k : ℕ) :
    ∀ p ∈ rankedOf e query top_k, (1 : ℚ)/10 < p.2 := by
  unfold rankedOf
  split_ifs with h1 h2
  · simp
  · simp only [sklearn_ranked]
    intro p hp
    rcases List.mem_map.mp hp with ⟨idx, hidx, hpe⟩
    rcases List.mem_filter.mp hidx with ⟨_, hcond⟩
    subst hpe
    simpa using of_decide_eq_true hcond
  · simp only [simple_ranked]
    intro p hp
    rcases List.mem_filter.mp hp with ⟨_, hcond⟩
    simpa using of_decide_eq_true hcond

/-- The keyword-path stable descending sort is descending on scores
with ties in ascending index order, whenever the input indices are
strictly increasing. -/
theorem sortScoresDesc_pairwise {scores : List (ℕ × ℚ)}
    (h : scores.Pairwise (fun a b => a.1 < b.1)) :
    (sortScoresDesc scores).Pairwise (fun a b => b.2 < a.2 ∨ (a.2 = b.2 ∧ a.1 < b.1)) := by
  refine pairwise_sortBy ?_ ?_ ?_ h
  · intro a b hab hs
    rcases lt_or_eq_of_le (of_decide_eq_true hab) with h1 | h1
    · exact Or.inl h1
    · exact Or.inr ⟨h1.symm, hs⟩
  · intro a b hab
    exact Or.inl (lt_of_not_le (of_decide_eq_false hab))
  · intro a b c hab hbc hs
    have hba : b.2 ≤ a.2 := of_decide_eq_true hab
    have hcb : c.2 ≤ b.2 := by
      rcases hbc with h1 | h1
      · exact le_of_lt h1
      · exact le_of_eq h1.1.symm
    rcases lt_or_eq_of_le (le_trans hcb hba) with h1 | h1
    · exact Or.inl h1
    · exact Or.inr ⟨h1.symm, hs⟩

/-- The stable ascending argsort is ascending on similarity values with
ties in ascending index order. -/
theorem argsort_pairwise (sims : List ℚ) :
    (argsort sims).Pairwise
      (fun i j => sims.getD i 0 < sims.getD j 0 ∨ (sims.getD i 0 = sims.getD j 0 ∧ i < j)) := by
  refine pairwise_sortBy ?_ ?_ ?_ (List.pairwise_lt_range sims.length)
  · intro a b hab hs
    rcases lt_or_eq_of_le (of_decide_eq_true hab) with h1 | h1
    · exact Or.inl h1
    · exact Or.inr ⟨h1, hs⟩
  · intro a b hab
    exact Or.inl (lt_of_not_le (of_decide_eq_false hab))
  · intro a b c hab hbc hs
    have h1 : sims.getD a 0 ≤ sims.getD b 0 := of_decide_eq_true hab
    have h2 : sims.getD b 0 ≤ sims.getD c 0 := by
      rcases hbc with h2 | h2
      · exact le_of_lt h2
      · exact le_of_eq h2.1
    rcases lt_or_eq_of_le (le_trans h1 h2) with h3 | h3
    · exact Or.inl h3
    · exact Or.inr ⟨h3, hs⟩

/-- The keyword-path ranking is descending on scores with ties in
ascending corpus order. -/
theorem simple_ranked_sorted (docs : List Doc) (query : String) (top_k : ℕ) :
    descTieAsc (simple_ranked docs query top_k) := by
  unfold descTieAsc simple_ranked
  have hscores : ((List.range docs.length).map
      (fun idx => (idx, simpleScore (wordSet query) (docs.getD idx ⟨"", ""⟩)))).Pairwise
        (fun a b => a.1 < b.1) :=
    List.pairwise_map.mpr (List.pairwise_lt_range docs.length)
  have h1 := sortScoresDesc_pairwise hscores
  exact (h1.sublist (List.take_sublist _ _)).sublist (List.filter_sublist _)

/-- The TF-IDF-path ranking is descending on similarities with ties in
descending corpus order: reversing the stable ascending argsort turns
the ascending tie order around. -/
theorem sklearn_ranked_sorted (sims : List ℚ) (top_k : ℕ) :
    descTieDesc (sklearn_ranked sims top_k) := by
  unfold descTieDesc sklearn_ranked
  have h1 : (argsort sims).reverse.Pairwise
      (fun i j => sims.getD j 0 < sims.getD i 0 ∨ (sims.getD j 0 = sims.getD i 0 ∧ j < i)) :=
    List.pairwise_reverse.mpr (argsort_pairwise sims)
  have h2 : (((argsort sims).reverse.take top_k).filter
      (fun idx => decide ((1 : ℚ)/10 < sims.getD idx 0))).Pairwise
      (fun i j => sims.getD j 0 < sims.getD i 0 ∨ (sims.getD j 0 = sims.getD i 0 ∧ j < i)) :=
    (h1.sublist (List.take_sublist _ _)).sublist (List.filter_sublist _)
  refine List.pairwise_map.mpr (h2.imp ?_)
  intro i j hij
  rcases hij with h3 | h3
  · exact Or.inl h3
  · exact Or.inr ⟨h3.1.symm, h3.2⟩

/-- C1: for every corpus, query and top_k, search returns at most top_k
results and every returned score is strictly above the 0.1 threshold,
on the TF-IDF path (any similarity row) as well as on the keyword
fallback path. -/
theorem search_bounded_and_thresholded (e : RAGEngine) (query : String) (top_k : ℕ)
    (verbose : Bool) :
    (e.search query top_k verbose).1.length ≤ top_k ∧
      ∀ r ∈ (e.search query top_k verbose).1, (1 : ℚ)/10 < r.score := by
  constructor
  · rw [search_fst_eq, List.length_map]
    exact rankedOf_length_le e query top_k
  · intro r hr
    rw [search_fst_eq] at hr
    rcases List.mem_map.mp hr with ⟨p, hp, hpe⟩
    have h1 := rankedOf_score_gt e query top_k p hp
    rw [← hpe]
    simpa using h1

/-- A two-document corpus used to witness the tie order of the TF-IDF
path. -/
def docA : Doc := ⟨"A", "a"⟩

/-- Second document of the tie-order corpus. -/
def docB : Doc := ⟨"B", "b"⟩

/-- An engine on the TF-IDF path whose similarity row gives both
documents the same score 1/2, well above the threshold. -/
def tieEngine : RAGEngine := ⟨[docA, docB], true, fun _ => [1/2, 1/2]⟩

/-- C2 counterexample: on the TF-IDF path, two documents with equal
similarity 1/2 come back in descending corpus order (document 1 before
document 0), so the claimed ascending tie-break fails on the search
output. -/
theorem search_tie_order_counterexample :
    (tieEngine.search "q" 3 false).1 = [⟨docB, 1/2⟩, ⟨docA, 1/2⟩] ∧
      rankedOf tieEngine "q" 3 = [(1, (1 : ℚ)/2), (0, 1/2)] ∧
      ¬ descTieAsc [(1, (1 : ℚ)/2), (0, 1/2)] := by
  refine ⟨?_, ?_, ?_⟩
  · norm_num [RAGEngine.search, RAGEngine.sklearn_search, tieEngine, sklearn_ranked, argsort,
      sortBy, insertBy, docA, docB, (show List.range 2 = [0, 1] by rfl), List.getD]
  · norm_num [rankedOf, tieEngine, sklearn_ranked, argsort, sortBy, insertBy, docA, docB,
      (show List.range 2 = [0, 1] by rfl), List.getD]
  · simp [descTieAsc, List.pairwise_cons]

/-- C2 (amended): the result sequence of search is the projection of
the ordinal-annotated ranking, whose scores are strictly descending on
both paths; equal scores appear in ascending corpus insertion order on
the keyword-fallback path, but in descending corpus insertion order on
the TF-IDF path (stable-argsort model of np.argsort followed by
reversal). -/
theorem search_sorted_amended (e : RAGEngine) (query : String) (top_k : ℕ) (verbose : Bool) :
    (e.search query top_k verbose).1 =
      (rankedOf e query top_k).map
        (fun p => (⟨e.docs.getD p.1 ⟨"", ""⟩, p.2⟩ : SearchResult)) ∧
      (if e.use_sklearn then descTieDesc (rankedOf e query top_k)
        else descTieAsc (rankedOf e query top_k)) := by
  refine ⟨search_fst_eq e query top_k verbose, ?_⟩
  unfold rankedOf
  cases hs : e.use_sklearn
  · simp only [Bool.false_eq_true, if_false]
    by_cases hd : e.docs.isEmpty
    · simp [hd, descTieAsc]
    · simp only [hd, if_false]
      exact simple_ranked_sorted _ _ _
  · simp only [if_true]
    by_cases hd : e.docs.isEmpty
    · simp [hd, descTieDesc]
    · simp only [hd, if_false]
      exact sklearn_ranked_sorted _ _

/-- The accumulator is a prefix of any further block concatenation. -/
theorem prefix_foldl_blocks (rs : List SearchResult) :
    ∀ acc : String, acc.data <+: (rs.foldl (fun a r => a ++ contextBlock r.doc) acc).data := by
  induction rs with
  | nil =>
    intro acc
    exact List.prefix_rfl
  | cons r rs ih =>
    intro acc
    rw [List.foldl_cons]
    have h1 : acc.data <+: (acc ++ contextBlock r.doc).data := by
      rw [String.data_append]
      exact List.prefix_append _ _
    exact h1.trans (ih (acc ++ contextBlock r.doc))

/-- The bounded accumulation loop produces a prefix of the unbounded
block concatenation started from the same accumulator. -/
theorem assembleLoop_isPre (max_length : ℕ) :
    ∀ (rs : List SearchResult) (acc : String),
      (assembleLoop max_length rs acc).data <+:
        (rs.foldl (fun a r => a ++ contextBlock r.doc) acc).data := by
  intro rs
  induction rs with
  | nil =>
    intro acc
    exact List.prefix_rfl
  | cons r rs ih =>
    intro acc
    simp only [assembleLoop, List.foldl_cons]
    by_cases h : max_length ≤ (acc ++ contextBlock r.doc).length
    · rw [if_pos h]
      exact prefix_foldl_blocks rs _
    · rw [if_neg h]
      exact ih _

/-- Truncation to n characters yields at most n characters. -/
theorem strTake_length_le (s : String) (n : ℕ) : (strTake s n).length ≤ n := by
  have h : (strTake s n).length = (s.data.take n).length := rfl
  rw [h]
  exact List.length_take_le _ _

/-- Unfolding equation for the visible component of
get_relevant_context. -/
theorem grc_fst (e : RAGEngine) (query : String) (max_length : ℕ) (verbose : Bool) :
    (e.get_relevant_context query max_length verbose).1 =
      strTake (assembleLoop max_length (e.search query 5 verbose).1 "") max_length := rfl

/-- The character list of a truncated string is the truncated character
list. -/
theorem strTake_data (s : String) (n : ℕ) : (strTake s n).data = s.data.take n := rfl

/-- C3: get_relevant_context never returns more than max_length
characters, and what it returns is a prefix of the unbounded assembly
of the same ranked results (same ranked search with top_k = 5, same
per-block heading and 500-character excerpt, blocks in ranked
order). -/
theorem context_bounded_and_pre_of_full (e : RAGEngine) (query : String)
    (max_length : ℕ) (verbose : Bool) :
    (e.get_relevant_context query max_length verbose).1.length ≤ max_length ∧
      (e.get_relevant_context query max_length verbose).1.data <+:
        (assembleFull (e.search query 5 verbose).1).data := by
  constructor
  · rw [grc_fst]
    exact strTake_length_le _ _
  · rw [grc_fst, strTake_data]
    exact ( List.take_prefix _ _).trans (assembleLoop_isPre _ _ _)

/-- C4: with an empty corpus, search returns the empty sequence and
get_relevant_context the empty string, for every query, top_k,
max_length and verbose flag; both are total functions of the model, so
no exception can occur. -/
theorem empty_corpus_empty_results (e : RAGEngine) (query : String) (top_k max_length : ℕ)
    (verbose : Bool) (h : e.docs = []) :
    (e.search query top_k verbose).1 = [] ∧
      (e.get_relevant_context query max_length verbose).1 = "" := by
  have hd : e.docs.isEmpty = true := by simp [h]
  have h1 : (e.search query top_k verbose).1 = [] := by
    unfold RAGEngine.search
    simp [hd]
  have h5 : (e.search query 5 verbose).1 = [] := by
    unfold RAGEngine.search
    simp [hd]
  refine ⟨h1, ?_⟩
  rw [grc_fst, h5]
  simp [assembleLoop, strTake]

/-- C4 witness: a concrete empty-corpus engine on the TF-IDF path. -/
theorem empty_corpus_empty_results_witness :
    (RAGEngine.mk [] true (fun _ => [])).docs = [] ∧
      ((RAGEngine.mk [] true (fun _ => [])).search "badge" 3 true).1 = [] ∧
      ((RAGEngine.mk [] true (fun _ => [])).get_relevant_context "badge" 10 true).1 = "" := by
  have h := empty_corpus_empty_results (RAGEngine.mk [] true (fun _ => [])) "badge" 3 10 true rfl
  exact ⟨rfl, h.1, h.2⟩

/-- C5 counterexample: a source that exists but cannot be parsed makes
construction fail (the json.load error propagates out of load_docs and
__init__), rather than succeeding with an empty corpus. -/
theorem init_unparsable_fails :
    RAGEngine.init false (fun _ => []) LoadSource.unparsable = Except.error "JSONDecodeError" ∧
      (RAGEngine.init false (fun _ => []) LoadSource.unparsable).isOk = false :=
  ⟨rfl, rfl⟩

/-- C5 (amended): if the source does not exist, construction succeeds
with an empty corpus and every subsequent query returns the empty
list; but if the source exists and cannot be parsed, the parse error
propagates and construction fails. -/
theorem init_missing_ok_amended (sk : Bool) (sim : String → List ℚ) :
    RAGEngine.init sk sim LoadSource.missing = Except.ok ⟨[], sk, sim⟩ ∧
      (∀ (query : String) (top_k : ℕ) (verbose : Bool),
        ((RAGEngine.mk [] sk sim).search query top_k verbose).1 = []) ∧
      (RAGEngine.init sk sim LoadSource.unparsable).isOk = false := by
  refine ⟨rfl, ?_, rfl⟩
  intro query top_k verbose
  unfold RAGEngine.search
  simp

/-- Scoring formula exactly as the spec words it: content overlap over
query word count plus twice the title overlap over query word count,
with no clamping of the divisor. -/
def specKeywordScore (query : String) (doc : Doc) : ℚ :=
  (interCount (wordSet query) (wordSet doc.content) : ℚ) / ((wordSet query).length : ℚ)
    + 2 * ((interCount (wordSet query) (wordSet doc.title) : ℚ) / ((wordSet query).length : ℚ))

/-- C6: on the keyword-fallback path, for every query with at least one
word, the implemented score coincides with the spec formula
overlap(content)/len(query) + 2*overlap(title)/len(query) on lowercased
whitespace-split word sets. -/
theorem simpleScore_eq_spec (query : String) (doc : Doc)
    (h : 1 ≤ (wordSet query).length) :
    simpleScore (wordSet query) doc = specKeywordScore query doc := by
  simp only [simpleScore, specKeywordScore]
  rw [Nat.max_eq_left h]
  ring

/-- C6 witness: a concrete two-word query and document. -/
theorem simpleScore_eq_spec_witness :
    1 ≤ (wordSet "status badge").length ∧
      simpleScore (wordSet "status badge") ⟨"Badges", "badge status"⟩ =
        specKeywordScore "status badge" ⟨"Badges", "badge status"⟩ :=
  ⟨by decide, simpleScore_eq_spec "status badge" ⟨"Badges", "badge status"⟩ (by decide)⟩

/-- C7: search and get_relevant_context are pure functions of the
engine state (corpus, path flag, index) and their query arguments, so
repeated calls agree by definitional equality; and the verbose flag
influences at most the diagnostic log, never the returned value. -/
theorem verbose_never_changes_results (e : RAGEngine) (query : String) (top_k max_length : ℕ)
    (v v' : Bool) :
    (e.search query top_k v).1 = (e.search query top_k v').1 ∧
      (e.get_relevant_context query max_length v).1 =
        (e.get_relevant_context query max_length v').1 := by
  constructor
  · rw [search_fst_eq, search_fst_eq]
  · rw [grc_fst, grc_fst, search_fst_eq e query 5 v, search_fst_eq e query 5 v']

/-- First scenario document of the spec: the Badges page. -/
def badgesDoc : Doc := ⟨"Badges", "Use a badge component to show status values."⟩

/-- Second scenario document of the spec: the Currency page. -/
def currencyDoc : Doc := ⟨"Currency", "Format currency using a number component."⟩

/-- The scenario engine on the keyword path (the path the cited
_simple_search code implements). -/
def scenarioEngine : RAGEngine := ⟨[badgesDoc, currencyDoc], false, fun _ => []⟩

/-- C8: on the scenario corpus, the query status badge with top_k = 1
returns exactly one result, the Badges document, whose score 1 is
strictly above 0.1; and the unrelated query returns the empty
sequence. -/
theorem scenario_queries :
    (scenarioEngine.search "status badge" 1 false).1 = [⟨badgesDoc, 1⟩] ∧
      (1 : ℚ)/10 < 1 ∧
      (scenarioEngine.search "nonexistent unrelated term xyz" 3 false).1 = [] := by
  have hs0 : simpleScore (wordSet "status badge") badgesDoc = 1 := by
    simp only [simpleScore]
    rw [(show interCount (wordSet "status badge") (wordSet badgesDoc.content) = 2 from by
          decide),
        (show interCount (wordSet "status badge") (wordSet badgesDoc.title) = 0 from by
          decide),
        (show max (wordSet "status badge").length 1 = 2 from by decide)]
    norm_num
  have hs1 : simpleScore (wordSet "status badge") currencyDoc = 0 := by
    simp only [simpleScore]
    rw [(show interCount (wordSet "status badge") (wordSet currencyDoc.content) = 0 from by
          decide),
        (show interCount (wordSet "status badge") (wordSet currencyDoc.title) = 0 from by
          decide),
        (show max (wordSet "status badge").length 1 = 2 from by decide)]
    norm_num
  have ht0 : simpleScore (wordSet "nonexistent unrelated term xyz") badgesDoc = 0 := by
    simp only [simpleScore]
    rw [(show interCount (wordSet "nonexistent unrelated term xyz")
            (wordSet badgesDoc.content) = 0 from by decide),
        (show interCount (wordSet "nonexistent unrelated term xyz")
            (wordSet badgesDoc.title) = 0 from by decide),
        (show max (wordSet "nonexistent unrelated term xyz").length 1 = 4 from by decide)]
    norm_num
  have ht1 : simpleScore (wordSet "nonexistent unrelated term xyz") currencyDoc = 0 := by
    simp only [simpleScore]
    rw [(show interCount (wordSet "nonexistent unrelated term xyz")
            (wordSet currencyDoc.content) = 0 from by decide),
        (show interCount (wordSet "nonexistent unrelated term xyz")
            (wordSet currencyDoc.title) = 0 from by decide),
        (show max (wordSet "nonexistent unrelated term xyz").length 1 = 4 from by decide)]
    norm_num
  refine ⟨?_, by norm_num, ?_⟩
  · norm_num [RAGEngine.search, RAGEngine.simple_search, simple_ranked, scenarioEngine,
      (show List.range 2 = [0, 1] from rfl), List.getD, hs0, hs1, sortScoresDesc, sortBy,
      insertBy]
  · norm_num [RAGEngine.search, RAGEngine.simple_search, simple_ranked, scenarioEngine,
      (show List.range 2 = [0, 1] from rfl), List.getD, ht0, ht1, sortScoresDesc, sortBy,
      insertBy]

/-- C9: a query that tokenizes to no words is harmless on the keyword
path: the clamped divisor max(len(query_words), 1) equals 1 (so the
division is by 1, never by 0), every document scores 0, and search
returns the empty sequence. -/
theorem empty_query_harmless (e : RAGEngine) (query : String) (top_k : ℕ) (verbose : Bool)
    (hsk : e.use_sklearn = false) (hq : wordSet query = []) :
    max (wordSet query).length 1 = 1 ∧
      (∀ d : Doc, simpleScore (wordSet query) d = 0) ∧
      (e.search query top_k verbose).1 = [] := by
  have hscore : ∀ d : Doc, simpleScore (wordSet query) d = 0 := by
    intro d
    simp [simpleScore, hq, interCount]
  refine ⟨by simp [hq], hscore, ?_⟩
  rw [search_fst_eq]
  unfold rankedOf
  by_cases hd : e.docs.isEmpty
  · simp [hd]
  · simp only [hd, if_false, hsk, Bool.false_eq_true]
    suffices h : simple_ranked e.docs query top_k = [] by simp [h]
    simp only [simple_ranked]
    apply List.filter_eq_nil_iff.mpr
    intro p hp
    have hp2 : p ∈ sortScoresDesc ((List.range e.docs.length).map
        (fun idx => (idx, simpleScore (wordSet query) (e.docs.getD idx ⟨"", ""⟩)))) :=
      List.take_subset _ _ hp
    have hp3 := mem_sortBy hp2
    rcases List.mem_map.mp hp3 with ⟨idx, _, hpe⟩
    rw [← hpe]
    simp only [hscore]
    norm_num

/-- C9 witness: a whitespace-only query on a one-document keyword-path
engine. -/
theorem empty_query_harmless_witness :
    ((RAGEngine.mk [⟨"T", "c"⟩] false (fun _ => [])).use_sklearn = false ∧
      wordSet "  " = []) ∧
      ((RAGEngine.mk [⟨"T", "c"⟩] false (fun _ => [])).search "  " 3 false).1 = [] :=
  ⟨⟨rfl, by decide⟩,
    (empty_query_harmless (RAGEngine.mk [⟨"T", "c"⟩] false (fun _ => [])) "  " 3 false rfl
      (by decide)).2.2⟩

/-- C10: in state-passing form, search and get_relevant_context return
the engine unchanged — their Python bodies assign to no field of self,
so docs, use_sklearn and the index are preserved — while load_docs is
the operation that replaces the corpus (and the index). -/
theorem queries_preserve_state (e : RAGEngine) (query : String) (top_k max_length : ℕ)
    (verbose : Bool) (docs : List Doc) (sim : String → List ℚ) :
    (e.searchM query top_k verbose).2 = e ∧
      (e.get_relevant_contextM query max_length verbose).2 = e ∧
      (e.load_docsM docs sim).docs = docs :=
  ⟨rfl, rfl, rfl⟩
